import Mathlib

/-!
Verification development for pawprint (src/pawprint.c), a tmpfiles-style
filesystem reconciler.  The definitions below are a shallow embedding of the
program: strings are lists of characters, the filesystem is a finite tree of
named nodes, and every handler of the dispatch engine is translated function
by function from the C source.  Entry names inside one directory are unique
in every state considered, mirroring readdir semantics.
-/

namespace Pawprint

abbrev Str := List Char

/-- C isspace in the default locale: space, \t, \n, \v, \f, \r
    (by code point: 32, 9, 10, 11, 12, 13). -/
def isSpaceC (c : Char) : Bool :=
  c.toNat = 32 || c.toNat = 9 || c.toNat = 10 || c.toNat = 11 ||
  c.toNat = 12 || c.toNat = 13

def isDigitC (c : Char) : Bool :=
  decide (48 ≤ c.toNat) && decide (c.toNat ≤ 57)

/-- Octal digit. -/
def isOctC (c : Char) : Bool :=
  decide (48 ≤ c.toNat) && decide (c.toNat ≤ 55)

def isHexC (c : Char) : Bool :=
  isDigitC c || (decide (97 ≤ c.toNat) && decide (c.toNat ≤ 102)) ||
  (decide (65 ≤ c.toNat) && decide (c.toNat ≤ 70))

/-- Value of a decimal or octal digit character. -/
def digVal (c : Char) : Nat := c.toNat - 48

/-- Value of a hexadecimal digit character. -/
def hexVal (c : Char) : Nat :=
  if isDigitC c then c.toNat - 48
  else if decide (97 ≤ c.toNat) && decide (c.toNat ≤ 102) then c.toNat - 87
  else c.toNat - 55

/-- skip_space (pawprint.c:84): skip blanks and tabs. -/
def skip_space : Str → Str
  | [] => []
  | c :: r => if c = ' ' || c = '\t' then skip_space r else c :: r

/-- Skip C isspace characters (the leading-whitespace skip of strtol and the
    inter-token skip of sscanf %s conversions). -/
def dropSpaces : Str → Str
  | [] => []
  | c :: r => if isSpaceC c then dropSpaces r else c :: r

/-- Consume a maximal run of digits accepted by isD, accumulating the value
    in the given base: the digit-consuming core of strtol. -/
def takeNum (isD : Char → Bool) (val : Char → Nat) (base : Nat) :
    Str → Nat → Nat × Str
  | [], a => (a, [])
  | c :: r, a =>
    if isD c then takeNum isD val base r (base * a + val c) else (a, c :: r)

def condNeg (neg : Bool) (v : Nat) : Int := if neg then -(v : Int) else (v : Int)

/-- Whether the string starts with the given character. -/
def headIs (c : Char) : Str → Bool
  | d :: _ => d == c
  | [] => false

/-- Whether the string starts with a hexadecimal digit. -/
def headIsHex : Str → Bool
  | d :: _ => isHexC d
  | [] => false

/-- strtol(s, &end, 0), as called by convert_age (pawprint.c:222): skip
    leading whitespace, accept an optional sign, then a hexadecimal (0x
    prefix followed by a hex digit), octal (leading 0) or decimal numeral.
    When no digit can be consumed the end pointer is the original string.
    Clamping of out-of-range values to LONG_MAX is not modelled; the age
    theorem carries a hypothesis keeping all values far below 2^63, where
    the model and the C function agree. -/
def strtol0 (s : Str) : Int × Str :=
  let s1 := dropSpaces s
  let neg := headIs '-' s1
  let s2 := if headIs '-' s1 || headIs '+' s1 then s1.tail else s1
  match s2 with
  | [] => (0, s)
  | c :: r =>
    if c == '0' then
      match r with
      | [] => (0, [])
      | c2 :: r2 =>
        if (c2 == 'x' || c2 == 'X') && headIsHex r2 then
          let (v, rest) := takeNum isHexC hexVal 16 r2 0
          (condNeg neg v, rest)
        else
          let (v, rest) := takeNum isOctC digVal 8 r 0
          (condNeg neg v, rest)
    else if isDigitC c then
      let (v, rest) := takeNum isDigitC digVal 10 (c :: r) 0
      (condNeg neg v, rest)
    else (0, s)

/-- Seconds per age unit character (convert_age, pawprint.c:224-229);
    0 marks an unknown unit. -/
def unitOf (c : Char) : Nat :=
  if c = 'd' then 86400
  else if c = 'w' then 604800
  else if c = 'h' then 3600
  else if c = 'm' then 60
  else if c = 's' then 1
  else 0

/-- The loop of convert_age (pawprint.c:222-234).  Every iteration consumes
    at least the unit character, so the length of the string bounds the
    number of iterations; the fuel argument makes this bound explicit and
    the zero-fuel branch is unreachable from convert_age. -/
def convert_age_go : Nat → Str → Int → Int
  | 0, _, t => t
  | fuel + 1, s, t =>
    let (scale, s') := strtol0 s
    match s' with
    | [] => t
    | u :: s'' =>
      if unitOf u = 0 then -1
      else convert_age_go fuel s'' (t + (unitOf u : Int) * scale)

/-- convert_age (pawprint.c:216): the empty string or a leading '-' yields
    the sentinel (time_t)-1, meaning no age restriction. -/
def convert_age (s : Str) : Int :=
  match s with
  | [] => -1
  | c :: _ => if c = '-' then -1 else convert_age_go s.length s 0

/-- fnmatch(pattern, string, 0) from libc, as called by is_excluded
    (pawprint.c:242): with no flags, * and ? match any characters including
    slashes.  Modelled for patterns built from literal characters and the
    metacharacters * and ?; no bracket expression or backslash escape
    appears in this development.  Every recursive call shrinks the sum of
    the two lengths, which the fuel argument makes explicit. -/
def fnmatch_go : Nat → Str → Str → Bool
  | 0, p, s => p.isEmpty && s.isEmpty
  | fuel + 1, p, s =>
    match p with
    | [] => s.isEmpty
    | c :: p' =>
      if c = '*' then
        fnmatch_go fuel p' s ||
          (match s with
           | [] => false
           | _ :: s' => fnmatch_go fuel (c :: p') s')
      else
        match s with
        | [] => false
        | d :: s' => (c = '?' || c = d) && fnmatch_go fuel p' s'

def fnmatch (pat s : Str) : Bool := fnmatch_go (pat.length + s.length + 1) pat s

/-- is_excluded (pawprint.c:239).  The C loop tests
    excludedList[0 .. excludedCount-2]; main() seeds excludedCount = 1 with
    one unused slot and attr_exclude stores each new pattern at index
    excludedCount-2 after growing the array, so those indices are exactly
    the registered patterns, modelled here as a plain list. -/
def is_excluded (reg : List Str) (path : Str) : Bool :=
  reg.any (fun pat => fnmatch pat path)

/-- stat(2) metadata of one inode, restricted to the fields pawprint reads
    or writes, plus the FS_IOC_GETFLAGS attribute bits.  Timestamp updates
    performed implicitly by syscalls (mtime on write, ctime on chmod, ...)
    are not modelled; no claim observes a timestamp after a mutation. -/
structure FMeta where
  atime : Int
  mtime : Int
  ctime : Int
  mode : Nat
  uid : Nat
  gid : Nat
  fattrs : Nat

mutual
inductive FSNode where
  | file (m : FMeta) (content : Str)
  | dir (m : FMeta) (entries : FSEntries)
inductive FSEntries where
  | nil
  | cons (name : Str) (node : FSNode) (rest : FSEntries)
end

def FSEntries.isNil : FSEntries → Bool
  | .nil => true
  | .cons _ _ _ => false

def metaOf : FSNode → FMeta
  | .file m _ => m
  | .dir m _ => m

def setMeta (f : FMeta → FMeta) : FSNode → FSNode
  | .file m c => .file (f m) c
  | .dir m es => .dir (f m) es

def findEntry : FSEntries → Str → Option FSNode
  | .nil, _ => none
  | .cons n node r, name => if n == name then some node else findEntry r name

def replaceEntry : FSEntries → Str → FSNode → FSEntries
  | .nil, _, _ => .nil
  | .cons n node r, name, newN =>
    if n == name then .cons n newN (replaceEntry r name newN)
    else .cons n node (replaceEntry r name newN)

def eraseEntry : FSEntries → Str → FSEntries
  | .nil, _ => .nil
  | .cons n node r, name =>
    if n == name then eraseEntry r name else .cons n node (eraseEntry r name)

def appendEntry : FSEntries → Str → FSNode → FSEntries
  | .nil, name, newN => .cons name newN .nil
  | .cons n node r, name, newN => .cons n node (appendEntry r name newN)

/-- Path components.  pawprint hands the kernel path strings; the model
    resolves them from the root directory (all rule paths in this
    development are absolute). -/
abbrev PathC := List Str

def splitPath_go : Str → Str → PathC
  | [], acc => if acc.isEmpty then [] else [acc.reverse]
  | c :: r, acc =>
    if c = '/' then
      (if acc.isEmpty then splitPath_go r [] else acc.reverse :: splitPath_go r [])
    else splitPath_go r (c :: acc)

/-- Split a path string on '/' into its components. -/
def splitPath (s : Str) : PathC := splitPath_go s []

def lookupNode : FSNode → PathC → Option FSNode
  | n, [] => some n
  | .file _ _, _ :: _ => none
  | .dir _ es, c :: cs =>
    match findEntry es c with
    | some n => lookupNode n cs
    | none => none

/-- Apply f to the node at the given path, if the path resolves; otherwise
    leave the tree unchanged (the failing-syscall case at the call sites). -/
def mapAt : FSNode → PathC → (FSNode → FSNode) → FSNode
  | n, [], f => f n
  | .file m c, _ :: _, _ => .file m c
  | .dir m es, c :: cs, f =>
    match findEntry es c with
    | none => .dir m es
    | some child => .dir m (replaceEntry es c (mapAt child cs f))

/-- remove(3): unlink a file, rmdir a directory (which fails unless the
    directory is empty).  Returns the new tree and the success flag. -/
def removeAt : FSNode → PathC → FSNode × Bool
  | n, [] => (n, false)
  | .file m c, _ :: _ => (.file m c, false)
  | .dir m es, [name] =>
    (match findEntry es name with
     | none => (.dir m es, false)
     | some (.file _ _) => (.dir m (eraseEntry es name), true)
     | some (.dir _ es') =>
       if es'.isNil then (.dir m (eraseEntry es name), true)
       else (.dir m es, false))
  | .dir m es, c :: cs =>
    (match findEntry es c with
     | none => (.dir m es, false)
     | some child =>
       let (child', ok) := removeAt child cs
       (.dir m (replaceEntry es c child'), ok))

/-- Create a node at a path, provided the parent directory exists and the
    final name is free: the ENOENT/EEXIST behavior of open(O_CREAT) and
    mkdir.  Returns the new tree and the success flag. -/
def insertAt : FSNode → PathC → FSNode → FSNode × Bool
  | n, [], _ => (n, false)
  | .file m c, _ :: _, _ => (.file m c, false)
  | .dir m es, [name], newN =>
    (match findEntry es name with
     | some _ => (.dir m es, false)
     | none => (.dir m (appendEntry es name newN), true))
  | .dir m es, c :: cs, newN =>
    (match findEntry es c with
     | none => (.dir m es, false)
     | some child =>
       let (child', ok) := insertAt child cs newN
       (.dir m (replaceEntry es c child'), ok))

/-- Replace the entry list of the directory at the given path. -/
def setEntriesAt (fs : FSNode) (p : PathC) (es' : FSEntries) : FSNode :=
  mapAt fs p (fun n => match n with | .dir m _ => .dir m es' | other => other)

/-- Whether the first character of an entry name is '.', the entries the
    directory traversal skips (pawprint.c:160). -/
def startsDot (s : Str) : Bool := s.head? = some '.'

/-- The run mode bits of gArg (pawprint.c:29), set by the excluded
    command-line layer and read-only for the core. -/
structure Modes where
  boot : Bool
  clean : Bool
  create : Bool
  remove : Bool

/-- External collaborators of the handlers: the fixed current time, the
    effective uid/gid of the process (owner of newly created nodes) and the
    passwd/group databases behind getpwnam/getgrnam. -/
structure Env where
  now : Int
  uid : Nat
  gid : Nat
  users : List (Str × Nat)
  groups : List (Str × Nat)

/-- Mutable run state: the filesystem tree rooted at /, the exclusion
    registry, and the number of log_warn calls made so far. -/
structure Sys where
  fs : FSNode
  reg : List Str
  warns : Nat

/-- get_last_time (pawprint.c:124), on the stat result: the most recent of
    atime, mtime and ctime, written as the two ternaries of the source. -/
def get_last_time (m : FMeta) : Int :=
  let lastChange := if m.atime > m.mtime then m.atime else m.mtime
  if lastChange > m.ctime then lastChange else m.ctime

/-- is_valid_file (pawprint.c:115): stat succeeds. -/
def is_valid_file (fs : FSNode) (path : Str) : Bool :=
  (lookupNode fs (splitPath path)).isSome

mutual
/-- Recursion of iterate_directory_sub (pawprint.c:148) with r = true and
    the clean_file callback (pawprint.c:248), on one node: recurse into a
    directory's entries; a file is left to the caller's callback. -/
def cleanNode (cl : Bool) (reg : List Str) (ddl : Int) : FSNode → FSNode × Nat
  | .file m c => (.file m c, 0)
  | .dir m es =>
    let (es', w) := cleanEntries cl reg ddl es
    (.dir m es', w)
/-- One directory level of the clean traversal.  Entries whose name starts
    with '.' are skipped; a directory entry is recursed into first and then
    handed to clean_file (the top = false call at pawprint.c:175), a file
    entry is handed to clean_file directly.  clean_file removes the entry
    when it is not excluded and (its last activity predates the deadline OR
    gArg.clean is set); remove(3) of a still-nonempty directory fails with a
    warning (pawprint.c:256).  The returned Nat counts warnings. -/
def cleanEntries (cl : Bool) (reg : List Str) (ddl : Int) :
    FSEntries → FSEntries × Nat
  | .nil => (.nil, 0)
  | .cons name node rest =>
    let (rest', wr) := cleanEntries cl reg ddl rest
    if startsDot name then (.cons name node rest', wr)
    else
      let (node', wn) := cleanNode cl reg ddl node
      if is_excluded reg name then (.cons name node' rest', wn + wr)
      else if decide (get_last_time (metaOf node) < ddl) || cl then
        match node' with
        | .file _ _ => (rest', wn + wr)
        | .dir m' es' =>
          if es'.isNil then (rest', wn + wr)
          else (.cons name (.dir m' es') rest', wn + wr + 1)
      else (.cons name node' rest', wn + wr)
end

/-- attr_clean (pawprint.c:261): only in clean mode.  The deadline is
    now - convert_age(age); iterate_directory runs with top = true, so the
    callback is applied to the entries below the target but never to the
    target directory itself.  opendir on a missing path or a non-directory
    fails with a warning (pawprint.c:154). -/
def attr_clean (modes : Modes) (env : Env) (path age : Str) (sys : Sys) : Sys :=
  if !modes.clean then sys
  else
    let ddl := env.now - convert_age age
    match lookupNode sys.fs (splitPath path) with
    | some (FSNode.dir _ es) =>
      let (es', w) := cleanEntries modes.clean sys.reg ddl es
      { sys with fs := setEntriesAt sys.fs (splitPath path) es',
                 warns := sys.warns + w }
    | _ => { sys with warns := sys.warns + 1 }

/-- attr_createdir (pawprint.c:274): only in create mode; mkdir(path, 0755)
    when stat fails (umask is taken to be 0); a failing mkdir warns. -/
def attr_createdir (modes : Modes) (env : Env) (path : Str) (sys : Sys) : Sys :=
  if !modes.create then sys
  else if is_valid_file sys.fs path then sys
  else
    let (fs', ok) := insertAt sys.fs (splitPath path)
      (FSNode.dir ⟨env.now, env.now, env.now, 0o755, env.uid, env.gid, 0⟩ .nil)
    if ok then { sys with fs := fs' }
    else { sys with fs := fs', warns := sys.warns + 1 }

/-- attr_create (pawprint.c:288): only in create mode; open(path,
    O_CREAT|O_WRONLY) when stat fails.  The C call omits the mode argument
    of open, leaving the new permission bits unspecified; they are modelled
    as 0 and no claim depends on them.  A failing open warns. -/
def attr_create (modes : Modes) (env : Env) (path : Str) (sys : Sys) : Sys :=
  if !modes.create then sys
  else if is_valid_file sys.fs path then sys
  else
    let (fs', ok) := insertAt sys.fs (splitPath path)
      (FSNode.file ⟨env.now, env.now, env.now, 0, env.uid, env.gid, 0⟩ [])
    if ok then { sys with fs := fs' }
    else { sys with fs := fs', warns := sys.warns + 1 }

/-- strtol(mode, NULL, 8) (attr_perm, pawprint.c:312). -/
def strtol8 (s : Str) : Int :=
  let s1 := dropSpaces s
  let neg := s1.head? = some '-'
  let s2 := if s1.head? = some '-' || s1.head? = some '+' then s1.tail else s1
  let (v, _) := takeNum isOctC digVal 8 s2 0
  condNeg neg v

/-- attr_perm (pawprint.c:305): a '-' or empty mode field is ignored;
    otherwise chmod the target to the octal value of the field (chmod of a
    missing path fails with a warning).  A negative strtol result cannot be
    produced by a dispatched rule, since a leading '-' is filtered first;
    the mode_t cast is modelled by toNat. -/
def attr_perm (path mode : Str) (sys : Sys) : Sys :=
  if mode.head? = some '-' || mode.isEmpty then sys
  else
    match lookupNode sys.fs (splitPath path) with
    | some _ =>
      { sys with fs := (mapAt sys.fs (splitPath path)
          (setMeta (fun m => { m with mode := (strtol8 mode).toNat }))) }
    | none => { sys with warns := sys.warns + 1 }

def lookupDb (db : List (Str × Nat)) (name : Str) : Option Nat :=
  (db.find? (fun e => e.1 == name)).map (·.2)

/-- adjust_user (pawprint.c:318): '-' or empty user field is ignored; an
    unknown user warns; chown(path, uid, -1) changes only the uid and fails
    with a warning when the path is missing. -/
def adjust_user (env : Env) (path user : Str) (sys : Sys) : Sys :=
  if user.head? = some '-' || user.isEmpty then sys
  else
    match lookupDb env.users user with
    | none => { sys with warns := sys.warns + 1 }
    | some uid =>
      match lookupNode sys.fs (splitPath path) with
      | some _ =>
        { sys with fs := (mapAt sys.fs (splitPath path)
            (setMeta (fun m => { m with uid := uid }))) }
      | none => { sys with warns := sys.warns + 1 }

/-- adjust_group (pawprint.c:334), symmetric to adjust_user. -/
def adjust_group (env : Env) (path group : Str) (sys : Sys) : Sys :=
  if group.head? = some '-' || group.isEmpty then sys
  else
    match lookupDb env.groups group with
    | none => { sys with warns := sys.warns + 1 }
    | some gid =>
      match lookupNode sys.fs (splitPath path) with
      | some _ =>
        { sys with fs := (mapAt sys.fs (splitPath path)
            (setMeta (fun m => { m with gid := gid }))) }
      | none => { sys with warns := sys.warns + 1 }

/-- attr_ownership (pawprint.c:350). -/
def attr_ownership (env : Env) (path user group : Str) (sys : Sys) : Sys :=
  adjust_group env path group (adjust_user env path user sys)

/-- attr_write (pawprint.c:358): only in create mode and only when the
    target already exists; open O_WRONLY|O_TRUNC and write the argument.
    Writes in the model always complete in full, so the partial-write retry
    loop collapses to a single write of the whole argument.  Opening a
    directory for writing fails (EISDIR) with a warning. -/
def attr_write (modes : Modes) (path arg : Str) (sys : Sys) : Sys :=
  if !modes.create then sys
  else
    match lookupNode sys.fs (splitPath path) with
    | some (FSNode.file _ _) =>
      { sys with fs := (mapAt sys.fs (splitPath path)
          (fun n => match n with
            | FSNode.file m' _ => FSNode.file m' arg
            | other => other)) }
    | some (FSNode.dir _ _) => { sys with warns := sys.warns + 1 }
    | none => sys

mutual
/-- The do_remove traversal of attr_remove on one node. -/
def removeNode : FSNode → FSNode
  | .file m c => .file m c
  | .dir m es => .dir m (removeEntries es)
/-- One directory level of iterate_directory with the do_remove callback
    (pawprint.c:386): names starting with '.' are skipped, files are
    unlinked, directories are recursed into and then removed (rmdir, which
    fails when dot-entries are left behind; do_remove ignores the failure
    and emits no warning). -/
def removeEntries : FSEntries → FSEntries
  | .nil => .nil
  | .cons name node rest =>
    if startsDot name then .cons name node (removeEntries rest)
    else
      match removeNode node with
      | .file _ _ => removeEntries rest
      | .dir m' es' =>
        if es'.isNil then removeEntries rest
        else .cons name (.dir m' es') (removeEntries rest)
end

/-- attr_remove (pawprint.c:393): only in remove mode.  For a directory
    target, iterate_directory runs with top = true, so do_remove is applied
    to all non-hidden descendants, innermost first, but never to the target
    directory itself.  A non-directory target is removed directly.  When the
    target is missing, the stat inside is_directory fails with a warning and
    the subsequent remove fails silently. -/
def attr_remove (modes : Modes) (path : Str) (sys : Sys) : Sys :=
  if !modes.remove then sys
  else
    match lookupNode sys.fs (splitPath path) with
    | some (FSNode.dir _ es) =>
      { sys with fs := setEntriesAt sys.fs (splitPath path) (removeEntries es) }
    | some (FSNode.file _ _) =>
      { sys with fs := (removeAt sys.fs (splitPath path)).1 }
    | none => { sys with warns := sys.warns + 1 }

/-- The FS_*_FL bits of linux/fs.h for the characters accepted by
    do_set_file_attr (pawprint.c:423-431); unknown characters give 0. -/
def fattr_flag (c : Char) : Nat :=
  if c = 'a' then 0x20
  else if c = 'D' then 0x10000
  else if c = 'i' then 0x10
  else if c = 'j' then 0x4000
  else if c = 'A' then 0x80
  else if c = 'C' then 0x800000
  else if c = 'd' then 0x40
  else if c = 't' then 0x8000
  else if c = 'P' then 0x20000000
  else if c = 's' then 0x1
  else if c = 'S' then 0x8
  else if c = 'T' then 0x20000
  else if c = 'u' then 0x2
  else 0

/-- Bitwise complement of a C unsigned long (64 bits). -/
def compl64 (x : Nat) : Nat := x ^^^ (2 ^ 64 - 1)

/-- do_set_file_attr (pawprint.c:409), translated expression by expression.
    Note that for a '-' operation the mask is complemented once at line 441
    (mask = type ? mask : ~mask) and a second time at line 451
    (origin & ~mask).  Unknown attribute characters warn but stay in the
    loop; an invalid first character warns and returns; a failing open
    warns.  The two ioctls are modelled as reading and writing the fattrs
    field. -/
def do_set_file_attr (path arg : Str) (sys : Sys) : Sys :=
  match arg with
  | [] => { sys with warns := sys.warns + 1 }
  | op :: chars =>
    if op = '+' || op = '-' then
      let typ := op = '+'
      let maskW := chars.foldl
        (fun acc c => (acc.1 ||| fattr_flag c,
                       acc.2 + (if fattr_flag c = 0 then 1 else 0))) (0, 0)
      let mask := if typ then maskW.1 else compl64 maskW.1
      match lookupNode sys.fs (splitPath path) with
      | none => { sys with warns := sys.warns + maskW.2 + 1 }
      | some n =>
        let origin := (metaOf n).fattrs
        let origin' := if typ then origin ||| mask else origin &&& compl64 mask
        { sys with
            fs := (mapAt sys.fs (splitPath path)
              (setMeta (fun m => { m with fattrs := origin' }))),
            warns := sys.warns + maskW.2 }
    else { sys with warns := sys.warns + 1 }

/-- attr_attr (pawprint.c:459). -/
def attr_attr (path arg : Str) (sys : Sys) : Sys := do_set_file_attr path arg sys

/-- attr_exclude (pawprint.c:466): append the path, as written in the rule,
    to the exclusion registry.  (The fatal out-of-memory path is not
    modelled.) -/
def attr_exclude (path : Str) (sys : Sys) : Sys :=
  { sys with reg := sys.reg ++ [path] }

/-- process_file (pawprint.c:493): run the handler of every set attribute
    bit, from the lowest bit to the highest.  Handlers are registered for
    bits 1 (attr_create), 4 (attr_perm), 5 (attr_createdir), 8 (attr_write),
    9 (attr_ownership), 10 (attr_clean), 11 (attr_remove), 12 (attr_attr)
    and 13 (attr_exclude); no type character produces any other bit below
    30, which is what saves the C loop from calling a null handler. -/
def process_file (modes : Modes) (env : Env) (attr : Nat)
    (path mode user group age arg : Str) (sys : Sys) : Sys :=
  let s0 := sys
  let s1 := if attr.testBit 1 then attr_create modes env path s0 else s0
  let s2 := if attr.testBit 4 then attr_perm path mode s1 else s1
  let s3 := if attr.testBit 5 then attr_createdir modes env path s2 else s2
  let s4 := if attr.testBit 8 then attr_write modes path arg s3 else s3
  let s5 := if attr.testBit 9 then attr_ownership env path user group s4 else s4
  let s6 := if attr.testBit 10 then attr_clean modes env path age s5 else s5
  let s7 := if attr.testBit 11 then attr_remove modes path s6 else s6
  let s8 := if attr.testBit 12 then attr_attr path arg s7 else s7
  let s9 := if attr.testBit 13 then attr_exclude path s8 else s8
  s9

def ATTR_CREATE : Nat := 2 ^ 1
def ATTR_PERM : Nat := 2 ^ 4
def ATTR_CREATEDIR : Nat := 2 ^ 5
def ATTR_WRITE : Nat := 2 ^ 8
def ATTR_OWNERSHIP : Nat := 2 ^ 9
def ATTR_CLEAN : Nat := 2 ^ 10
def ATTR_REMOVE : Nat := 2 ^ 11
def ATTR_ATTR : Nat := 2 ^ 12
def ATTR_EXCLUDE : Nat := 2 ^ 13
def ATTR_ONBOOT : Nat := 2 ^ 30
def ATTR_GLOB : Nat := 2 ^ 31

/-- attrTableSet (pawprint.c:523): the flag set of each type character;
    characters without a table entry give 0. -/
def attrTableSet (c : Char) : Nat :=
  if c = 'w' then ATTR_WRITE
  else if c = 'f' then ATTR_CREATE ||| ATTR_WRITE ||| ATTR_OWNERSHIP ||| ATTR_PERM
  else if c = 'd' then ATTR_CREATEDIR ||| ATTR_OWNERSHIP ||| ATTR_PERM ||| ATTR_CLEAN
  else if c = '!' then ATTR_ONBOOT
  else if c = 'r' then ATTR_REMOVE ||| ATTR_GLOB
  else if c = 'D' then
    ATTR_CREATEDIR ||| ATTR_OWNERSHIP ||| ATTR_PERM ||| ATTR_CLEAN ||| ATTR_REMOVE
  else if c = 'q' then ATTR_CREATEDIR ||| ATTR_OWNERSHIP ||| ATTR_PERM ||| ATTR_CLEAN
  else if c = 'Q' then
    ATTR_CREATEDIR ||| ATTR_OWNERSHIP ||| ATTR_PERM ||| ATTR_CLEAN ||| ATTR_REMOVE
  else if c = 'h' then ATTR_ATTR ||| ATTR_GLOB
  else if c = 'x' then ATTR_EXCLUDE
  else 0

/-- glob(3) matching of one path component against one pattern component: a
    name with a leading dot is only matched by a pattern with a literal
    leading dot (the default no-GLOB_PERIOD behavior). -/
def globComp (pat name : Str) : Bool :=
  match name, pat with
  | '.' :: _, '.' :: _ => fnmatch pat name
  | '.' :: _, _ => false
  | _, _ => fnmatch pat name

mutual
/-- glob(3) tree walk: which existing paths below this node match the
    remaining pattern components. -/
def globNode : FSNode → List Str → List PathC
  | _, [] => [[]]
  | FSNode.file _ _, _ :: _ => []
  | FSNode.dir _ es, p :: ps => globEntries es p ps
def globEntries : FSEntries → Str → List Str → List PathC
  | FSEntries.nil, _, _ => []
  | FSEntries.cons name node rest, p, ps =>
    (if globComp p name then (globNode node ps).map (fun q => name :: q) else [])
      ++ globEntries rest p ps
end

def joinPath_go : PathC → Str
  | [] => []
  | [c] => c
  | c :: cs => c ++ '/' :: joinPath_go cs

/-- Rebuild a path string from matched components, restoring the leading
    slash of an absolute pattern. -/
def joinPath (isAbs : Bool) (cs : PathC) : Str :=
  if isAbs then '/' :: joinPath_go cs else joinPath_go cs

/-- glob_match (pawprint.c:187): expand the pattern against the current
    filesystem (GLOB_NOSORT: matches come in traversal order) and invoke
    process_file once per match; no matches means no calls at all.  The
    match list is collected before any callback runs, as glob(3) does. -/
def glob_match (modes : Modes) (env : Env) (attr : Nat)
    (pattern mode user group age arg : Str) (sys : Sys) : Sys :=
  let isAbs := pattern.head? = some '/'
  let found := globNode sys.fs (splitPath pattern)
  found.foldl
    (fun s comps =>
      process_file modes env attr (joinPath isAbs comps) mode user group age arg s)
    sys

/-- Maximal non-whitespace run at the head of the string. -/
def takeTok : Str → Str × Str
  | [] => ([], [])
  | c :: r =>
    if isSpaceC c then ([], c :: r)
    else
      let (t, rest) := takeTok r
      (c :: t, rest)

/-- One %ms conversion of sscanf: skip whitespace, then read a maximal
    nonempty run of non-whitespace characters.  It fails only when the
    input is exhausted first. -/
def scan_token (s : Str) : Option (Str × Str) :=
  match takeTok (dropSpaces s) with
  | ([], _) => none
  | (t, rest) => some (t, rest)

/-- sscanf(line, "%ms%ms%ms%ms%ms%ms%n", ...) (pawprint.c:552): up to six
    whitespace-delimited tokens; the %n count is the number of characters
    consumed when all six conversions succeed, and term_len keeps its
    initial value 0 otherwise (%n is only reached after the sixth
    conversion). -/
def sscanf6 (line : Str) : List Str × Nat :=
  match scan_token line with
  | none => ([], 0)
  | some (t1, r1) =>
    match scan_token r1 with
    | none => ([t1], 0)
    | some (t2, r2) =>
      match scan_token r2 with
      | none => ([t1, t2], 0)
      | some (t3, r3) =>
        match scan_token r3 with
        | none => ([t1, t2, t3], 0)
        | some (t4, r4) =>
          match scan_token r4 with
          | none => ([t1, t2, t3, t4], 0)
          | some (t5, r5) =>
            match scan_token r5 with
            | none => ([t1, t2, t3, t4, t5], 0)
            | some (t6, r6) =>
              ([t1, t2, t3, t4, t5, t6], line.length - r6.length)

/-- Bitwise complement of a C uint32_t (entry_attr_t). -/
def compl32 (x : Nat) : Nat := x ^^^ (2 ^ 32 - 1)

/-- The flag accumulation over the characters of the type token
    (pawprint.c:562-568): OR of the table rows, warning on every character
    with an empty row.  Returns the flags and the warning count. -/
def type_attr (p : Str) : Nat × Nat :=
  p.foldl
    (fun acc c =>
      (acc.1 ||| attrTableSet c, acc.2 + (if attrTableSet c = 0 then 1 else 0)))
    (0, 0)

/-- One iteration of the parse_conf loop (pawprint.c:541) on one input line
    (getline delivers each line including its trailing newline).  Returns
    the new state and false when the loop breaks, which happens exactly when
    sscanf matches nothing (matched < 0 on an all-whitespace line). -/
def parse_conf_line (modes : Modes) (env : Env) (line : Str) (sys : Sys) :
    Sys × Bool :=
  let scanned := sscanf6 line
  match scanned.1.head? with
  | none => (sys, false)
  | some ty =>
    let p := skip_space ty
    if p.head? = some '#' then (sys, true)
    else
      let ta := type_attr p
      let attr := ta.1
      let sys1 : Sys := { sys with warns := sys.warns + ta.2 }
      if (attr &&& ATTR_ONBOOT != 0) && !modes.boot then (sys1, true)
      else
        let path := scanned.1.getD 1 []
        let mode := scanned.1.getD 2 []
        let user := scanned.1.getD 3 []
        let group := scanned.1.getD 4 []
        let age := scanned.1.getD 5 []
        let arg := line.drop scanned.2
        let attr2 := attr &&& compl32 ATTR_ONBOOT &&& compl32 ATTR_GLOB
        if attr &&& ATTR_GLOB != 0 then
          (glob_match modes env attr2 path mode user group age arg sys1, true)
        else
          (process_file modes env attr2 path mode user group age arg sys1, true)

/-- parse_conf (pawprint.c:541) over the lines of one configuration stream;
    a line on which sscanf matches nothing breaks the loop. -/
def parse_conf (modes : Modes) (env : Env) : List Str → Sys → Sys
  | [], sys => sys
  | l :: ls, sys =>
    match parse_conf_line modes env l sys with
    | (sys', true) => parse_conf modes env ls sys'
    | (sys', false) => sys'

/-! Observation helpers used by the theorems below. -/

def existsAt (fs : FSNode) (p : List String) : Bool :=
  (lookupNode fs (p.map (·.toList))).isSome

def modeAt (fs : FSNode) (p : List String) : Option Nat :=
  (lookupNode fs (p.map (·.toList))).map (fun n => (metaOf n).mode)

def contentAt (fs : FSNode) (p : List String) : Option Str :=
  match lookupNode fs (p.map (·.toList)) with
  | some (FSNode.file _ c) => some c
  | _ => none

def fattrsAt (fs : FSNode) (p : List String) : Option Nat :=
  (lookupNode fs (p.map (·.toList))).map (fun n => (metaOf n).fattrs)

def isEmptyDirAt (fs : FSNode) (p : List String) : Bool :=
  match lookupNode fs (p.map (·.toList)) with
  | some (FSNode.dir _ es) => es.isNil
  | _ => false

/-! Concrete run fixtures. -/

/-- A fixed external environment: current time 1000000, process running as
    root, empty user and group databases. -/
def env0 : Env := ⟨1000000, 0, 0, [], []⟩

/-- Metadata of a node whose three timestamps all equal the current time. -/
def mFresh : FMeta := ⟨1000000, 1000000, 1000000, 420, 0, 0, 0⟩

/-- Metadata of a node last touched at epoch 0, far beyond every age used
    here. -/
def mOld : FMeta := ⟨0, 0, 0, 420, 0, 0, 0⟩

def modesClean : Modes := ⟨false, true, false, false⟩
def modesCreate : Modes := ⟨false, false, true, false⟩
def modesRemove : Modes := ⟨false, false, false, true⟩
def modesCR : Modes := ⟨false, false, true, true⟩

/-- Filesystem /tmp/logs/fresh where fresh is a file with last activity at
    the current time. -/
def fsC1 : FSNode :=
  FSNode.dir mOld (FSEntries.cons "tmp".toList
    (FSNode.dir mOld (FSEntries.cons "logs".toList
      (FSNode.dir mOld (FSEntries.cons "fresh".toList (FSNode.file mFresh [])
        FSEntries.nil))
      FSEntries.nil))
    FSEntries.nil)

/-- Clean-mode run of the rule d /tmp/logs - - - 2d on fsC1. -/
def runC1 : Sys :=
  (parse_conf_line modesClean env0 "d /tmp/logs - - - 2d\n".toList
    ⟨fsC1, [], 0⟩).1

/-- Claim C1: with clean mode and a CLEAN rule of age 2d, the clean pass is
    claimed to remove exactly the entries whose last activity is older than
    now - 172800 s and to keep all others.  Evaluating the embedding on a
    file whose last activity IS the current time: the file is removed
    anyway, because the removal condition of clean_file (pawprint.c:254) is
    get_last_time(path) < ddl || gArg.clean, and gArg.clean necessarily
    holds whenever attr_clean runs.  The age comparison is dead code. -/
theorem C1_clean_ignores_age :
    convert_age "2d".toList = 172800 ∧
    ¬ get_last_time mFresh < env0.now - 172800 ∧
    existsAt runC1.fs ["tmp", "logs", "fresh"] = false ∧
    existsAt runC1.fs ["tmp", "logs"] = true := by
  refine ⟨by decide, by decide, ?_, ?_⟩ <;> rfl

/-- Filesystem /tmp/logs/keep.log where keep.log is a stale file. -/
def fsC2 : FSNode :=
  FSNode.dir mOld (FSEntries.cons "tmp".toList
    (FSNode.dir mOld (FSEntries.cons "logs".toList
      (FSNode.dir mOld (FSEntries.cons "keep.log".toList (FSNode.file mOld [])
        FSEntries.nil))
      FSEntries.nil))
    FSEntries.nil)

/-- Clean-mode run of the two-line stream x /tmp/logs/keep.log followed by
    d /tmp/logs - - - 1d on fsC2. -/
def runC2 : Sys :=
  parse_conf modesClean env0
    ["x /tmp/logs/keep.log\n".toList, "d /tmp/logs - - - 1d\n".toList]
    ⟨fsC2, [], 0⟩

/-- Claim C2: an EXCLUDE rule registered before a CLEAN rule is claimed to
    protect the matching entry.  Evaluating the embedding on the exact input
    of the claim: the pattern /tmp/logs/keep.log is registered, but the
    clean traversal hands is_excluded the bare entry name keep.log (the
    walk chdirs into the directory and passes d_name, pawprint.c:157-167),
    which the absolute pattern never matches under fnmatch, so the entry is
    removed after all. -/
theorem C2_exclusion_not_applied :
    runC2.reg = ["/tmp/logs/keep.log".toList] ∧
    is_excluded runC2.reg "keep.log".toList = false ∧
    get_last_time mOld < env0.now - 86400 ∧
    existsAt runC2.fs ["tmp", "logs", "keep.log"] = false := by
  refine ⟨by decide, ?_, by decide, ?_⟩ <;> rfl

/-- Filesystem /tmp/sub where sub is a directory holding one file a. -/
def fsC3 : FSNode :=
  FSNode.dir mOld (FSEntries.cons "tmp".toList
    (FSNode.dir mOld (FSEntries.cons "sub".toList
      (FSNode.dir mOld (FSEntries.cons "a".toList (FSNode.file mOld [])
        FSEntries.nil))
      FSEntries.nil))
    FSEntries.nil)

/-- Remove-mode invocation of the remove handler on the directory /tmp/sub. -/
def runC3 : Sys := attr_remove modesRemove "/tmp/sub".toList ⟨fsC3, [], 0⟩

/-- Claim C3: the remove handler is claimed to delete the contents of a
    directory target and then the directory itself.  Evaluating the
    embedding: the contents are deleted, but the directory survives empty,
    because attr_remove calls iterate_directory with top = true
    (pawprint.c:180-185), which never applies the callback to the top
    directory. -/
theorem C3_remove_keeps_top_directory :
    existsAt runC3.fs ["tmp", "sub", "a"] = false ∧
    existsAt runC3.fs ["tmp", "sub"] = true ∧
    isEmptyDirAt runC3.fs ["tmp", "sub"] = true := by
  refine ⟨?_, ?_, ?_⟩ <;> rfl

/-- Filesystem with an empty /tmp. -/
def fsC4 : FSNode :=
  FSNode.dir mOld (FSEntries.cons "tmp".toList (FSNode.dir mOld FSEntries.nil)
    FSEntries.nil)

/-- Create-mode run of d /tmp/newdir 0700 - - - with /tmp/newdir absent. -/
def runC4 : Sys :=
  (parse_conf_line modesCreate env0 "d /tmp/newdir 0700 - - -\n".toList
    ⟨fsC4, [], 0⟩).1

/-- Claim C4: the dispatcher is claimed to run the create-directory handler
    before the permission handler.  Evaluating the embedding on a d rule
    with mode 0700 and an absent target: ATTR_PERM is bit 4 and
    ATTR_CREATEDIR is bit 5, and process_file runs handlers lowest bit
    first, so chmod is attempted on the nonexistent path (one warning) and
    the directory is then created with mkdir mode 0755; the requested 0700
    is lost. -/
theorem C4_perm_runs_before_createdir :
    modeAt runC4.fs ["tmp", "newdir"] = some 0o755 ∧
    modeAt runC4.fs ["tmp", "newdir"] ≠ some 0o700 ∧
    runC4.warns = 1 := by
  refine ⟨rfl, by decide, rfl⟩

/-- Claim C5, counterexample: the table is claimed to map z to
    {OWNER, PERM, GLOB}; in the source z has no row at all, so it maps to
    the empty flag set. -/
theorem C5_table_counterexample :
    attrTableSet 'z' ≠ ATTR_OWNERSHIP ||| ATTR_PERM ||| ATTR_GLOB := by decide

/-- Claim C5, amended: the attribute table reproduces the reference mapping
    for the characters f, w, d, D, q, Q, r, x, h and the modifier row for
    the character that marks boot-only rules, while z is unrecognized and
    yields the empty set (and hence a warning and no action at dispatch). -/
theorem C5_table_amended :
    attrTableSet 'f' = ATTR_CREATE ||| ATTR_WRITE ||| ATTR_OWNERSHIP ||| ATTR_PERM ∧
    attrTableSet 'w' = ATTR_WRITE ∧
    attrTableSet 'd' = ATTR_CREATEDIR ||| ATTR_OWNERSHIP ||| ATTR_PERM ||| ATTR_CLEAN ∧
    attrTableSet 'D' =
      ATTR_CREATEDIR ||| ATTR_OWNERSHIP ||| ATTR_PERM ||| ATTR_CLEAN ||| ATTR_REMOVE ∧
    attrTableSet 'q' = attrTableSet 'd' ∧
    attrTableSet 'Q' = attrTableSet 'D' ∧
    attrTableSet 'r' = ATTR_REMOVE ||| ATTR_GLOB ∧
    attrTableSet 'z' = 0 ∧
    attrTableSet 'x' = ATTR_EXCLUDE ∧
    attrTableSet 'h' = ATTR_ATTR ||| ATTR_GLOB ∧
    attrTableSet '!' = ATTR_ONBOOT := by decide

/-- Filesystem with an empty directory /tmp/a. -/
def fsC6 : FSNode :=
  FSNode.dir mOld (FSEntries.cons "tmp".toList
    (FSNode.dir mOld (FSEntries.cons "a".toList (FSNode.dir mOld FSEntries.nil)
      FSEntries.nil))
    FSEntries.nil)

/-- Create-mode run of the literal line of the claim. -/
def runC6 : Sys :=
  (parse_conf_line modesCreate env0
    "f /tmp/a/greeting 0644 - - - hello\n".toList ⟨fsC6, [], 0⟩).1

/-- Claim C6, counterexample: the created file is claimed to contain
    exactly the five bytes hello; it does not. -/
theorem C6_argument_counterexample :
    contentAt runC6.fs ["tmp", "a", "greeting"] ≠ some "hello".toList := by
  decide

/-- Claim C6, amended: parse_conf takes the argument as everything after
    the %n position of the sixth field, WITHOUT trimming leading whitespace
    or the trailing newline (pawprint.c:580 stores line + term_len
    directly), and attr_write writes it verbatim, so the file contains the
    seven bytes of " hello" followed by a newline. -/
theorem C6_argument_amended :
    contentAt runC6.fs ["tmp", "a", "greeting"] = some " hello\n".toList ∧
    modeAt runC6.fs ["tmp", "a", "greeting"] = some 0o644 ∧
    runC6.warns = 0 := by
  refine ⟨rfl, rfl, rfl⟩

/-- One file /k with attribute bits 0x30 (append 0x20 + immutable 0x10). -/
def fsC7 : FSNode :=
  FSNode.dir mOld (FSEntries.cons "k".toList
    (FSNode.file ⟨0, 0, 0, 384, 0, 0, 0x30⟩ []) FSEntries.nil)

/-- Run of do_set_file_attr with the argument -i on fsC7. -/
def runC7 : Sys := do_set_file_attr "/k".toList "-i".toList ⟨fsC7, [], 0⟩

/-- One file /k with attribute bits 0x20 (append only). -/
def fsC7b : FSNode :=
  FSNode.dir mOld (FSEntries.cons "k".toList
    (FSNode.file ⟨0, 0, 0, 384, 0, 0, 0x20⟩ []) FSEntries.nil)

/-- Run of do_set_file_attr with the argument +i on fsC7b. -/
def runC7b : Sys := do_set_file_attr "/k".toList "+i".toList ⟨fsC7b, [], 0⟩

/-- Claim C7: a '-' argument is claimed to write back
    current & ~removeMask.  Evaluating the embedding at current = 0x30 and
    argument -i (removeMask 0x10): the claim demands 0x30 & ~0x10 = 0x20,
    but the source complements the mask twice (pawprint.c:441 and 451) and
    stores current & removeMask = 0x10, clearing every bit NOT named
    instead.  The '+' half behaves as claimed (second conjunct). -/
theorem C7_attr_minus_keeps_named_bits :
    fattrsAt runC7.fs ["k"] = some 0x10 ∧
    fattrsAt runC7b.fs ["k"] = some 0x30 ∧
    0x30 &&& compl64 0x10 = 0x20 ∧
    fattrsAt runC7.fs ["k"] ≠ some (0x30 &&& compl64 0x10) := by
  refine ⟨rfl, rfl, by decide, by decide⟩

/-- Claim C9: a rule line whose type token has no recognized type character
    logs a warning, carries the empty flag set, and performs no filesystem
    operation.  In the source the rule is not literally discarded: it
    reaches process_file with attr = 0, whose dispatch loop then invokes no
    handler, so the observable effect is exactly one warning and an
    otherwise untouched state, for EVERY starting state, and the line loop
    continues. -/
theorem C9_unknown_type_no_effect :
    (type_attr (skip_space "@".toList)).1 = 0 ∧
    (type_attr (skip_space "@".toList)).2 = 1 ∧
    ∀ (modes : Modes) (env : Env) (sys : Sys),
      parse_conf_line modes env "@ /tmp/bogus - - - -\n".toList sys
        = ({ sys with warns := sys.warns + 1 }, true) := by
  refine ⟨by decide, by decide, fun modes env sys => rfl⟩

/-- Filesystem /tmp/p where p is a regular file. -/
def fsC10 : FSNode :=
  FSNode.dir mOld (FSEntries.cons "tmp".toList
    (FSNode.dir mOld (FSEntries.cons "p".toList (FSNode.file mOld [])
      FSEntries.nil))
    FSEntries.nil)

/-- First application of D /tmp/p 0644 - - - under create + remove modes. -/
def onceC10 : Sys :=
  (parse_conf_line modesCR env0 "D /tmp/p 0644 - - -\n".toList
    ⟨fsC10, [], 0⟩).1

/-- Second application of the same rule to the state left by the first. -/
def twiceC10 : Sys :=
  (parse_conf_line modesCR env0 "D /tmp/p 0644 - - -\n".toList onceC10).1

/-- Claim C10: processing a rule twice is claimed to yield the same final
    state as processing it once.  Evaluating the embedding on the rule
    D /tmp/p with create and remove modes enabled and /tmp/p initially a
    regular file: the first pass chmods and then deletes the file (the
    CREATEDIR handler skips an existing path), leaving /tmp/p absent; the
    second pass finds nothing, so attr_createdir now creates a directory,
    and attr_remove, which never deletes the top directory of its walk,
    leaves it in place.  Twice leaves an empty directory where once leaves
    nothing. -/
theorem C10_not_idempotent :
    existsAt onceC10.fs ["tmp", "p"] = false ∧
    existsAt twiceC10.fs ["tmp", "p"] = true ∧
    isEmptyDirAt twiceC10.fs ["tmp", "p"] = true := by
  refine ⟨?_, ?_, ?_⟩ <;> rfl

/-! Age-string correctness: the specification-side reading of an age string
    is a sequence of canonical decimal quantities paired with unit
    characters.  The lemmas below relate that reading to the strtol-based
    loop of convert_age. -/

/-- Decimal value of a digit string. -/
def decVal (q : Str) : Nat := q.foldl (fun a c => 10 * a + digVal c) 0

/-- A canonical decimal numeral: nonempty, all digits, and no leading zero
    except for the numeral 0 itself. -/
abbrev Quant (q : Str) : Prop :=
  q ≠ [] ∧ (∀ c ∈ q, isDigitC c = true) ∧ (q.head? = some '0' → q = ['0'])

/-- The age string spelled by a list of quantity-unit pairs. -/
def agePairsStr (ps : List (Str × Char)) : Str :=
  ps.foldr (fun p acc => p.1 ++ p.2 :: acc) []

theorem agePairsStr_cons (q : Str) (u : Char) (ps : List (Str × Char)) :
    agePairsStr ((q, u) :: ps) = q ++ u :: agePairsStr ps := rfl

theorem digit_not_space (c : Char) (h : isDigitC c = true) :
    isSpaceC c = false := by
  simp only [isDigitC, Bool.and_eq_true, decide_eq_true_eq] at h
  simp only [isSpaceC, Bool.or_eq_false_iff, decide_eq_false_iff_not]
  omega

theorem digit_ne (c d : Char) (hc : isDigitC c = true) (hd : isDigitC d = false) :
    c ≠ d := by
  intro e
  rw [e] at hc
  rw [hc] at hd
  exact Bool.noConfusion hd

theorem not_digit_oct (c : Char) (h : isDigitC c = false) : isOctC c = false := by
  cases hb : isOctC c with
  | false => rfl
  | true =>
    exfalso
    simp only [isOctC, Bool.and_eq_true, decide_eq_true_eq] at hb
    have hd : isDigitC c = true := by
      simp only [isDigitC, Bool.and_eq_true, decide_eq_true_eq]
      omega
    rw [hd] at h
    exact Bool.noConfusion h

theorem dropSpaces_not_space (c : Char) (t : Str) (h : isSpaceC c = false) :
    dropSpaces (c :: t) = c :: t := by
  simp [dropSpaces, h]

theorem takeNum_stop (isD : Char → Bool) (val : Char → Nat) (b : Nat)
    (c : Char) (r : Str) (a : Nat) (h : isD c = false) :
    takeNum isD val b (c :: r) a = (a, c :: r) := by
  simp [takeNum, h]

theorem takeNum_run (q rest : Str) (a : Nat)
    (hq : ∀ c ∈ q, isDigitC c = true)
    (h1 : ∀ c, rest.head? = some c → isDigitC c = false) :
    takeNum isDigitC digVal 10 (q ++ rest) a
      = (q.foldl (fun x c => 10 * x + digVal c) a, rest) := by
  induction q generalizing a with
  | nil =>
    simp only [List.nil_append, List.foldl_nil]
    cases rest with
    | nil => rfl
    | cons c r => exact takeNum_stop _ _ _ _ _ _ (h1 c rfl)
  | cons c q' ih =>
    have hc : isDigitC c = true := hq c (List.mem_cons_self _ _)
    simp only [List.cons_append, takeNum, hc, if_true, List.foldl_cons]
    exact ih _ (fun d hd => hq d (List.mem_cons_of_mem _ hd))

theorem strtol0_quant (q rest : Str) (hq : Quant q)
    (h1 : ∀ c, rest.head? = some c → isDigitC c = false)
    (h2 : q = ['0'] → ∀ c, rest.head? = some c → c ≠ 'x' ∧ c ≠ 'X') :
    strtol0 (q ++ rest) = ((decVal q : Int), rest) := by
  obtain ⟨hne, hdig, hzero⟩ := hq
  cases q with
  | nil => exact absurd rfl hne
  | cons c0 q' =>
    have hd0 : isDigitC c0 = true := hdig c0 (List.mem_cons_self _ _)
    have hds : dropSpaces (c0 :: (q' ++ rest)) = c0 :: (q' ++ rest) :=
      dropSpaces_not_space _ _ (digit_not_space _ hd0)
    have hm : (c0 == '-') = false := by
      rw [beq_eq_false_iff_ne]
      exact digit_ne _ _ hd0 (by decide)
    have hp : (c0 == '+') = false := by
      rw [beq_eq_false_iff_ne]
      exact digit_ne _ _ hd0 (by decide)
    by_cases h0 : c0 = '0'
    · subst h0
      have hq' : q' = [] := by
        have hz := hzero rfl
        simpa using hz
      subst hq'
      cases rest with
      | nil => decide
      | cons c2 r2 =>
        have hnd2 : isDigitC c2 = false := h1 c2 rfl
        have hx := h2 rfl c2 rfl
        have hx1 : (c2 == 'x') = false := by
          rw [beq_eq_false_iff_ne]; exact hx.1
        have hx2 : (c2 == 'X') = false := by
          rw [beq_eq_false_iff_ne]; exact hx.2
        have hoct : isOctC c2 = false := not_digit_oct _ hnd2
        have hds0 : dropSpaces ('0' :: c2 :: r2) = '0' :: c2 :: r2 :=
          dropSpaces_not_space _ _ (by decide)
        simp [strtol0, hds0, headIs, takeNum, hoct, hx.1, hx.2, condNeg,
          decVal, digVal, show ('0' : Char) ≠ '-' from by decide,
          show ('0' : Char) ≠ '+' from by decide]
    · have hb0 : (c0 == '0') = false := by
        rw [beq_eq_false_iff_ne]; exact h0
      simp only [strtol0, List.cons_append, hds, headIs, hm, hp, Bool.or_self,
        Bool.false_or, Bool.false_eq_true, if_false, hb0, hd0, if_true]
      rw [show (c0 :: (q' ++ rest)) = ((c0 :: q') ++ rest) from rfl]
      rw [takeNum_run _ _ _ hdig h1]
      simp [condNeg, decVal]

theorem unit_stop (u : Char) (hu : unitOf u ≠ 0) :
    isDigitC u = false ∧ u ≠ 'x' ∧ u ≠ 'X' := by
  unfold unitOf at hu
  split_ifs at hu with h1 h2 h3 h4 h5
  · subst h1; exact ⟨by decide, by decide, by decide⟩
  · subst h2; exact ⟨by decide, by decide, by decide⟩
  · subst h3; exact ⟨by decide, by decide, by decide⟩
  · subst h4; exact ⟨by decide, by decide, by decide⟩
  · subst h5; exact ⟨by decide, by decide, by decide⟩
  · exact absurd rfl hu

theorem convert_age_go_pairs (ps : List (Str × Char)) :
    ∀ (fuel : Nat) (t : Int),
      (∀ p ∈ ps, Quant p.1 ∧ unitOf p.2 ≠ 0) →
      (agePairsStr ps).length ≤ fuel →
      convert_age_go fuel (agePairsStr ps) t
        = t + ((ps.map (fun p => decVal p.1 * unitOf p.2)).sum : Nat) := by
  induction ps with
  | nil =>
    intro fuel t _ _
    cases fuel with
    | zero => simp [convert_age_go, agePairsStr]
    | succ f => simp [convert_age_go, agePairsStr, strtol0, dropSpaces, headIs]
  | cons p ps ih =>
    intro fuel t hall hlen
    obtain ⟨q, u⟩ := p
    have hq : Quant q := (hall _ (List.mem_cons_self _ _)).1
    have hu : unitOf u ≠ 0 := (hall _ (List.mem_cons_self _ _)).2
    have hstop := unit_stop u hu
    rw [agePairsStr_cons] at hlen ⊢
    have hql : 0 < q.length := List.length_pos.mpr hq.1
    have hlen2 : (q ++ u :: agePairsStr ps).length
        = q.length + 1 + (agePairsStr ps).length := by
      simp [List.length_append]
      omega
    obtain ⟨f, rfl⟩ : ∃ f, fuel = f + 1 := ⟨fuel - 1, by omega⟩
    have hs := strtol0_quant q (u :: agePairsStr ps) hq
      (fun c hc => (Option.some.inj hc) ▸ hstop.1)
      (fun _ c hc => (Option.some.inj hc) ▸ ⟨hstop.2.1, hstop.2.2⟩)
    simp only [convert_age_go, hs, hu, if_false]
    rw [ih f _ (fun p hp => hall p (List.mem_cons_of_mem _ hp)) (by omega)]
    rw [List.map_cons, List.sum_cons]
    push_cast
    ring

theorem convert_age_go_abort (ps : List (Str × Char)) :
    ∀ (fuel : Nat) (t : Int) (q : Str) (c : Char) (junk : Str),
      (∀ p ∈ ps, Quant p.1 ∧ unitOf p.2 ≠ 0) →
      Quant q → unitOf c = 0 → isDigitC c = false →
      (q = ['0'] → c ≠ 'x' ∧ c ≠ 'X') →
      (agePairsStr ps ++ (q ++ c :: junk)).length ≤ fuel →
      convert_age_go fuel (agePairsStr ps ++ (q ++ c :: junk)) t = -1 := by
  induction ps with
  | nil =>
    intro fuel t q c junk _ hq hc hcd hcx hlen
    rw [agePairsStr] at hlen ⊢
    simp only [List.foldr_nil, List.nil_append] at hlen ⊢
    have hql : 0 < q.length := List.length_pos.mpr hq.1
    have hlen2 : (q ++ c :: junk).length = q.length + 1 + junk.length := by
      simp [List.length_append]
      omega
    obtain ⟨f, rfl⟩ : ∃ f, fuel = f + 1 := ⟨fuel - 1, by omega⟩
    have hs := strtol0_quant q (c :: junk) hq
      (fun d hd => (Option.some.inj hd) ▸ hcd)
      (fun h0 d hd => (Option.some.inj hd) ▸ hcx h0)
    simp only [convert_age_go, hs, hc, if_true]
  | cons p ps ih =>
    intro fuel t q c junk hall hq hc hcd hcx hlen
    obtain ⟨qq, u⟩ := p
    have hqq : Quant qq := (hall _ (List.mem_cons_self _ _)).1
    have hu : unitOf u ≠ 0 := (hall _ (List.mem_cons_self _ _)).2
    have hstop := unit_stop u hu
    rw [agePairsStr_cons] at hlen ⊢
    rw [List.append_assoc, List.cons_append] at hlen ⊢
    have hql : 0 < qq.length := List.length_pos.mpr hqq.1
    have hlen2 : (qq ++ u :: (agePairsStr ps ++ (q ++ c :: junk))).length
        = qq.length + 1 + (agePairsStr ps ++ (q ++ c :: junk)).length := by
      simp [List.length_append]
      omega
    obtain ⟨f, rfl⟩ : ∃ f, fuel = f + 1 := ⟨fuel - 1, by omega⟩
    have hs := strtol0_quant qq (u :: (agePairsStr ps ++ (q ++ c :: junk))) hqq
      (fun d hd => (Option.some.inj hd) ▸ hstop.1)
      (fun _ d hd => (Option.some.inj hd) ▸ ⟨hstop.2.1, hstop.2.2⟩)
    simp only [convert_age_go, hs, hu, if_false]
    exact ih f _ q c junk (fun p hp => hall p (List.mem_cons_of_mem _ hp))
      hq hc hcd hcx (by omega)

/-- Claim C8: an age string made of canonical decimal quantity / unit pairs
    (d, w, h, m, s) parses to the sum of quantity times unit size, the empty
    string or a leading '-' yields the sentinel -1, and a string that
    continues with an unrecognized unit character after any number of valid
    pairs yields the sentinel without the rest being parsed.  The quantity
    strings are canonical decimal numerals (so the octal and hex prefixes of
    strtol base 0 fall outside the claim's integer grammar, which is also
    why a 0 quantity may not be followed by the letter x); the bound on the
    total keeps the run inside the range where the unclamped model agrees
    with the C long arithmetic. -/
theorem C8_convert_age :
    (∀ ps : List (Str × Char), ps ≠ [] →
      (∀ p ∈ ps, Quant p.1 ∧ unitOf p.2 ≠ 0) →
      (ps.map (fun p => decVal p.1 * unitOf p.2)).sum < 2 ^ 63 →
      convert_age (agePairsStr ps)
        = ((ps.map (fun p => decVal p.1 * unitOf p.2)).sum : Nat)) ∧
    (convert_age [] = -1 ∧ ∀ s : Str, convert_age ('-' :: s) = -1) ∧
    (∀ (ps : List (Str × Char)) (q : Str) (c : Char) (junk : Str),
      (∀ p ∈ ps, Quant p.1 ∧ unitOf p.2 ≠ 0) →
      Quant q → unitOf c = 0 → isDigitC c = false →
      (q = ['0'] → c ≠ 'x' ∧ c ≠ 'X') →
      convert_age (agePairsStr ps ++ (q ++ c :: junk)) = -1) := by
  refine ⟨?_, ⟨rfl, fun s => rfl⟩, ?_⟩
  · intro ps hne hall _
    have key := convert_age_go_pairs ps (agePairsStr ps).length 0 hall (le_refl _)
    have hsplit : ∃ c0 rest, agePairsStr ps = c0 :: rest ∧ isDigitC c0 = true := by
      cases ps with
      | nil => exact absurd rfl hne
      | cons p ps' =>
        obtain ⟨q, u⟩ := p
        have hq : Quant q := (hall _ (List.mem_cons_self _ _)).1
        obtain ⟨a, b, rfl⟩ : ∃ a b, q = a :: b := by
          cases q with
          | nil => exact absurd rfl hq.1
          | cons a b => exact ⟨a, b, rfl⟩
        exact ⟨a, b ++ u :: agePairsStr ps', by simp [agePairsStr_cons],
          hq.2.1 a (List.mem_cons_self _ _)⟩
    obtain ⟨c0, rest, he, hd0⟩ := hsplit
    rw [he] at key ⊢
    have hne' : c0 ≠ '-' := digit_ne _ _ hd0 (by decide)
    simp only [convert_age]
    rw [if_neg hne']
    simpa using key
  · intro ps q c junk hall hq hc hcd hcx
    have key := convert_age_go_abort ps
      (agePairsStr ps ++ (q ++ c :: junk)).length 0 q c junk hall hq hc hcd hcx
      (le_refl _)
    have hsplit : ∃ c0 rest,
        agePairsStr ps ++ (q ++ c :: junk) = c0 :: rest ∧ isDigitC c0 = true := by
      cases ps with
      | nil =>
        obtain ⟨a, b, rfl⟩ : ∃ a b, q = a :: b := by
          cases q with
          | nil => exact absurd rfl hq.1
          | cons a b => exact ⟨a, b, rfl⟩
        exact ⟨a, b ++ c :: junk, by simp [agePairsStr],
          hq.2.1 a (List.mem_cons_self _ _)⟩
      | cons p ps' =>
        obtain ⟨qq, u⟩ := p
        have hqq : Quant qq := (hall _ (List.mem_cons_self _ _)).1
        obtain ⟨a, b, rfl⟩ : ∃ a b, qq = a :: b := by
          cases qq with
          | nil => exact absurd rfl hqq.1
          | cons a b => exact ⟨a, b, rfl⟩
        exact ⟨a, b ++ u :: (agePairsStr ps' ++ (q ++ c :: junk)),
          by simp [agePairsStr_cons], hqq.2.1 a (List.mem_cons_self _ _)⟩
    obtain ⟨c0, rest, he, hd0⟩ := hsplit
    rw [he] at key ⊢
    have hne' : c0 ≠ '-' := digit_ne _ _ hd0 (by decide)
    simp only [convert_age]
    rw [if_neg hne']
    exact key

/-- Witness for C8 at the inputs of the specification: 1d12h parses to
    129600 seconds, - and 3x give the sentinel. -/
theorem C8_convert_age_witness :
    convert_age "1d12h".toList = 129600 ∧
    convert_age "-".toList = -1 ∧
    convert_age "3x".toList = -1 := by
  refine ⟨?_, C8_convert_age.2.1.2 [], ?_⟩
  · have h := C8_convert_age.1 [("1".toList, 'd'), ("12".toList, 'h')]
      (by decide) (by decide) (by decide)
    have e : agePairsStr [("1".toList, 'd'), ("12".toList, 'h')]
        = "1d12h".toList := by decide
    rw [e] at h
    rw [h]
    decide
  · have h := C8_convert_age.2.2 [] "3".toList 'x' [] (by simp) (by decide)
      (by decide) (by decide) (by decide)
    have e : agePairsStr [] ++ ("3".toList ++ 'x' :: []) = "3x".toList := by decide
    rw [e] at h
    exact h

end Pawprint
